import Mathlib

/-!
Verification of the thrust-curve processing core of `rocketpy/motors/Motor.py`.

Discrete thrust curves are embedded as lists of `(time, thrust)` pairs over `ℚ`
(the Python code uses floating point; all the algorithms under study are exact
rational computations, so `ℚ` captures them without rounding noise).

The `Function` class and `rocketpy.utilities.tuple_handler` are not part of the
source tree given here; the definitions that stand in for them are modelled from
the specification and are marked as such in their doc comments.  Everything else
is a direct translation of `Motor.py`.
-/

/-- Time of the first sample of a discrete curve (`xArray[0]` in the source). -/
def firstTime (ts : List (ℚ × ℚ)) : ℚ := ts.headI.1

/-- Time of the last sample of a discrete curve (`xArray[-1]` in the source). -/
def lastTime (ts : List (ℚ × ℚ)) : ℚ := ts.getLastI.1

/-- Modelled from the spec: evaluation of a discrete `TimeSeriesFunction`
(`Function.getValue` of `rocketpy/Function.py`, which is not under `src/`) with
linear interpolation between bracketing samples and zero extrapolation outside
the sample domain. -/
def getValue : List (ℚ × ℚ) → ℚ → ℚ
  | [], _ => 0
  | [p], t => if t = p.1 then p.2 else 0
  | p :: q :: rest, t =>
    if t < p.1 then 0
    else if t ≤ q.1 then p.2 + (q.2 - p.2) * (t - p.1) / (q.1 - p.1)
    else getValue (q :: rest) t

/-- Modelled from the spec: trapezoidal quadrature over consecutive samples,
the quadrature rule consistent with linear interpolation (`Function.integral`
of `rocketpy/Function.py` is not under `src/`). -/
def trapez : List (ℚ × ℚ) → ℚ
  | p :: q :: rest => (q.1 - p.1) * (p.2 + q.2) / 2 + trapez (q :: rest)
  | _ => 0

/-- A burn-time argument: either a single number or an explicit pair
(the dynamic typing of the Python `burn_time` parameter). -/
inductive BurnSpec : Type
  | one (v : ℚ)
  | pair (a b : ℚ)
deriving DecidableEq

/-- Modelled from the spec: `rocketpy.utilities.tuple_handler` (not under
`src/`): a single value is interpreted as the window `(0, value)`, a pair is
taken as is. -/
def tuple_handler : BurnSpec → ℚ × ℚ
  | .one v => (0, v)
  | .pair a b => (a, b)

/-- `Motor.clipThrust` (Motor.py lines 591-648): clamp the requested window to
the curve's sample domain (setting a warning flag instead of raising), keep the
original samples strictly inside the clamped window, and synthesize boundary
samples by interpolation.  The returned `Bool` records whether the clamp
warning was emitted. -/
def clipThrust (ts : List (ℚ × ℚ)) (new_burn_time : ℚ × ℚ) : Bool × List (ℚ × ℚ) :=
  let b1 := if new_burn_time.2 > lastTime ts then lastTime ts else new_burn_time.2
  let b0 := if new_burn_time.1 < firstTime ts then firstTime ts else new_burn_time.1
  let changedBurnTime :=
    decide (new_burn_time.2 > lastTime ts) || decide (new_burn_time.1 < firstTime ts)
  let interior := ts.filter (fun p => decide (b0 < p.1 ∧ p.1 < b1))
  (changedBurnTime, (b0, getValue ts b0) :: (interior ++ [(b1, getValue ts b1)]))

/-- Modelled from the spec: `Function.integral a b` (not under `src/`) — the
definite integral of the piecewise-linear interpolant with zero extrapolation,
computed as trapezoidal quadrature over the samples clipped to `[a, b]`. -/
def integralQ (ts : List (ℚ × ℚ)) (a b : ℚ) : ℚ :=
  trapez (clipThrust ts (a, b)).2

/-- `Motor.reshapeThrustCurve` (Motor.py lines 543-589): affinely remap the
sample times onto the new burn window, then uniformly scale the thrust values
so that the integral over the new window matches the requested total impulse. -/
def reshapeThrustCurve (ts : List (ℚ × ℚ)) (newBurnTime : BurnSpec)
    (totalImpulse : ℚ) : List (ℚ × ℚ) :=
  let nb := tuple_handler newBurnTime
  let scale := (nb.2 - nb.1) / (lastTime ts - firstTime ts)
  -- newTimeArray = scale * timeArray; newTimeArray - newTimeArray[0] + nb.1
  let shift := nb.1 - scale * firstTime ts
  let remapped := ts.map (fun p => (scale * p.1 + shift, p.2))
  let oldTotalImpulse := integralQ remapped nb.1 nb.2
  ts.map (fun p => (scale * p.1 + shift, (totalImpulse / oldTotalImpulse) * p.2))

/-- A raw thrust source: a constant, a callable, or a discrete sample array
(the `.eng`-file path case is resolved into a sample array before reaching
`Motor.__init__`'s processing, via `Motor.importEng`). -/
inductive ThrustSource : Type
  | const (c : ℚ)
  | fn (f : ℚ → ℚ)
  | samples (ts : List (ℚ × ℚ))

/-- Modelled from the spec: whether the wrapped source is callable
(`callable(self.thrust.source)`, Motor.py line 184) — `Function` of
`rocketpy/Function.py` is not under `src/`; per the spec a scalar source is
wrapped as a constant rule, so both scalars and callables count as callable. -/
def ThrustSource.isCallable : ThrustSource → Bool
  | .const _ => true
  | .fn _ => true
  | .samples _ => false

/-- Pointwise evaluation of a raw thrust source. -/
def ThrustSource.evalAt : ThrustSource → ℚ → ℚ
  | .const c, _ => c
  | .fn f, t => f t
  | .samples ts, t => getValue ts t

/-- Modelled from the spec: `Function.setDiscrete` (not under `src/`) — sample
a callable source at `n` evenly spaced points over `[a, b]`
(`self.thrust.setDiscrete(*self.burn_time, 50, ...)`, Motor.py line 185). -/
def setDiscrete (f : ℚ → ℚ) (a b : ℚ) (n : ℕ) : List (ℚ × ℚ) :=
  (List.range n).map (fun i => (a + (b - a) * i / (n - 1), f (a + (b - a) * i / (n - 1))))

/-- The error raised by the `burn_time` setter (Motor.py lines 236-239) when a
float or callable thrust source comes with no burn-time range. -/
inductive MotorError : Type
  | burnWindowRequired
deriving DecidableEq

/-- Resolution of `coordinateSystemOrientation` to the coordinate sign
(Motor.py lines 161-166).  The source `if/elif` has no `else` branch, so an
unrecognized tag leaves `_csys` unset — embedded as `none`. -/
def csysResolve (tag : String) : Option Int :=
  if tag = "nozzleToCombustionChamber" then some 1
  else if tag = "combustionChamberToNozzle" then some (-1)
  else none

/-- The attributes `Motor.__init__` stores.  `α` and `β` are the (dynamic)
types of the `nozzleRadius` and `nozzlePosition` arguments, which the
constructor only stores. -/
structure MotorState (α β : Type) : Type where
  csys : Option Int
  thrust : List (ℚ × ℚ)
  burn_time : ℚ × ℚ
  burnStartTime : ℚ
  burnOutTime : ℚ
  burnDuration : ℚ
  nozzleRadius : α
  nozzlePosition : β
  totalImpulse : ℚ
  averageThrust : ℚ
  warned : Bool
deriving DecidableEq

/-- Steps 2-5 of `Motor.__init__` before the final clip: resolve the burn
window (the `burn_time` setter, lines 222-239), discretize callable sources
over it (lines 184-185), and apply the optional reshape, which overwrites the
burn window with the reshaped curve's sample bounds (lines 188-191). -/
def rawCurve (thrustSource : ThrustSource) (bt : ℚ × ℚ) : List (ℚ × ℚ) :=
  match thrustSource with
  | .samples ts => ts
  | src => setDiscrete src.evalAt bt.1 bt.2 50

def motorPreClip (thrustSource : ThrustSource) (burnTimeArg : Option BurnSpec)
    (reshapeArg : Option (BurnSpec × ℚ)) :
    Except MotorError (List (ℚ × ℚ) × (ℚ × ℚ)) := do
  let bt ← match burnTimeArg with
    | some b => Except.ok (tuple_handler b)
    | none =>
      match thrustSource with
      | .samples ts => Except.ok (firstTime ts, lastTime ts)
      | _ => Except.error MotorError.burnWindowRequired
  let curve := rawCurve thrustSource bt
  match reshapeArg with
  | some (nbt, imp) =>
    let curve := reshapeThrustCurve curve nbt imp
    Except.ok (curve, (firstTime curve, lastTime curve))
  | none => Except.ok (curve, bt)

/-- `Motor.__init__` (Motor.py lines 94-209): coordinate-sign resolution, burn
window resolution, discretization/reshape, the unconditional final clip, and
the derived attributes.  Note that the clip clamps its window internally but
`self.burn_time` keeps the requested (possibly unclamped) window, exactly as
in the source. -/
def motorInit {α β : Type} (thrustSource : ThrustSource) (nozzleRadius : α)
    (burnTimeArg : Option BurnSpec) (nozzlePosition : β)
    (reshapeArg : Option (BurnSpec × ℚ)) (coordinateSystemOrientation : String) :
    Except MotorError (MotorState α β) := do
  let csys := csysResolve coordinateSystemOrientation
  let (curve, bt) ← motorPreClip thrustSource burnTimeArg reshapeArg
  let (warned, clipped) := clipThrust curve bt
  let totalImpulse := integralQ clipped bt.1 bt.2
  Except.ok
    { csys := csys
      thrust := clipped
      burn_time := bt
      burnStartTime := bt.1
      burnOutTime := bt.2
      burnDuration := bt.2 - bt.1
      nozzleRadius := nozzleRadius
      nozzlePosition := nozzlePosition
      totalImpulse := totalImpulse
      averageThrust := totalImpulse / (bt.2 - bt.1)
      warned := warned }

/-- `GenericMotor.__init__` (Motor.py lines 802-827).  The `super().__init__`
call passes its arguments positionally: `burn_time` lands in the parent's
`nozzleRadius` slot, `nozzleRadius` in the parent's `burn_time` slot and
`throatRadius` in the parent's `nozzlePosition` slot. -/
def genericMotorInit (thrustSource : ThrustSource) (burn_time : BurnSpec)
    (chamberRadius chamberHeight chamberPosition propellantInitialMass : ℚ)
    (nozzleRadius throatRadius : ℚ) (reshapeArg : Option (BurnSpec × ℚ)) :
    Except MotorError (MotorState BurnSpec ℚ) :=
  motorInit thrustSource burn_time (some (BurnSpec.one nozzleRadius)) throatRadius
    reshapeArg "nozzleToCombustionChamber"

/-- `Motor.exhaustVelocity` (Motor.py lines 257-271): total impulse divided by
the propellant initial mass, held constant over the burn. -/
def exhaustVelocity {α β : Type} (st : MotorState α β)
    (propellantInitialMass : ℚ) : ℚ :=
  st.totalImpulse / propellantInitialMass

/-- `Motor.massDot` (Motor.py lines 290-307): the discrete curve
`-1 * self.thrust / self.exhaustVelocity`; modelled from the spec, scalar
arithmetic on a discrete `Function` acts pointwise on the thrust values. -/
def massDot {α β : Type} (st : MotorState α β) (propellantInitialMass : ℚ) :
    List (ℚ × ℚ) :=
  st.thrust.map (fun p => (p.1, -1 * p.2 / exhaustVelocity st propellantInitialMass))

/-! ### `Motor.importEng` (Motor.py lines 650-697)

Lines of the `.eng` file are embedded as `List Char` (without the trailing
newline, which every per-line operation of the source ignores). -/

/-- The comment the source extracts from a line: `re.findall(";.*", line)[0]`,
the substring from the first `;` to the end of the line. -/
def commentPart (l : List Char) : List Char := l.dropWhile (fun c => c ≠ ';')

/-- `re.sub(";.*", "", line)`: the line with its comment removed. -/
def stripComment (l : List Char) : List Char := l.takeWhile (fun c => c ≠ ';')

/-- Python's `line.strip()` truthiness test: a line is blank when it contains
only whitespace. -/
def isBlank (l : List Char) : Bool := l.all Char.isWhitespace

/-- Python's `line.strip()`: drop leading and trailing whitespace. -/
def pStrip (l : List Char) : List Char :=
  ((l.dropWhile Char.isWhitespace).reverse.dropWhile Char.isWhitespace).reverse

/-- Python's `str.split(" ")`: split on each single space character. -/
def splitSpace : List Char → List (List Char)
  | [] => [[]]
  | c :: rest =>
    if c = ' ' then [] :: splitSpace rest
    else
      match splitSpace rest with
      | w :: ws => (c :: w) :: ws
      | [] => [[c]]

/-- One left-to-right match attempt of the regex
`[-+]?\d*\.\d+|[-+]?\d+` at the head of the input: returns the matched token
and the remaining input.  The first alternative (a decimal with mandatory
fractional digits) is preferred; greedy digit runs need no backtracking here
because a shortened `\d*` run would leave a digit where `\.` must match. -/
def matchNum (l : List Char) : Option (List Char × List Char) :=
  let (sgn, r1) : List Char × List Char :=
    match l with
    | c :: rest => if c = '-' ∨ c = '+' then ([c], rest) else ([], l)
    | [] => ([], l)
  let intPart := r1.takeWhile Char.isDigit
  let r2 := r1.dropWhile Char.isDigit
  match r2 with
  | '.' :: r3 =>
    let frac := r3.takeWhile Char.isDigit
    if frac = [] then
      if intPart = [] then none else some (sgn ++ intPart, r2)
    else some (sgn ++ intPart ++ '.' :: frac, r3.dropWhile Char.isDigit)
  | _ => if intPart = [] then none else some (sgn ++ intPart, r2)

/-- `re.findall(r"[-+]?\d*\.\d+|[-+]?\d+", line)`: scan left to right,
collecting non-overlapping matches.  Structured with a step budget so that the
definition evaluates by kernel reduction; `matchNum` always consumes at least
one character, so `l.length` steps suffice. -/
def findNumsAux : ℕ → List Char → List (List Char)
  | 0, _ => []
  | _ + 1, [] => []
  | fuel + 1, c :: rest =>
    match matchNum (c :: rest) with
    | some (tok, rest2) => tok :: findNumsAux fuel rest2
    | none => findNumsAux fuel rest

/-- All numeric tokens of a line, in order. -/
def findNums (l : List Char) : List (List Char) := findNumsAux l.length l

/-- Value of a digit character. -/
def digitVal (c : Char) : ℕ := c.toNat - '0'.toNat

/-- Value of a digit string. -/
def digitsToNat (l : List Char) : ℕ := l.foldl (fun n c => 10 * n + digitVal c) 0

/-- Python's `float` applied to a token of shape `[-+]? digits [. digits]`,
evaluated exactly in `ℚ`. -/
def parseDec (l : List Char) : ℚ :=
  let (sgn, r) : ℚ × List Char :=
    match l with
    | '-' :: rest => (-1, rest)
    | '+' :: rest => (1, rest)
    | _ => (1, l)
  let ip := r.takeWhile Char.isDigit
  let r2 := r.dropWhile Char.isDigit
  match r2 with
  | '.' :: fr => sgn * ((digitsToNat ip : ℚ) + (digitsToNat fr : ℚ) / (10 ^ fr.length))
  | _ => sgn * (digitsToNat ip : ℚ)

/-- The line-by-line loop of `Motor.importEng`: extract and strip comments,
take the first non-blank line as the description record, turn every further
non-blank line into one data point from its two numeric tokens, failing (as
the source's tuple unpacking does) when the token count is not two. -/
def importEngLoop :
    List (List Char) → List (List Char) → List (List Char) → List (ℚ × ℚ) →
    Except String (List (List Char) × List (List Char) × List (ℚ × ℚ))
  | [], comments, description, dataPoints => Except.ok (comments, description, dataPoints)
  | line :: rest, comments, description, dataPoints =>
    let comments :=
      if ';' ∈ line then comments ++ [commentPart line] else comments
    let line := stripComment line
    if isBlank line then importEngLoop rest comments description dataPoints
    else if description = [] then
      importEngLoop rest comments (splitSpace (pStrip line)) dataPoints
    else
      match findNums line with
      | [t, h] =>
        importEngLoop rest comments description (dataPoints ++ [(parseDec t, parseDec h)])
      | _ => Except.error "cannot unpack data line"

/-- `Motor.importEng`: the initial state prepends the implicit `(0, 0)` data
point absent from the file. -/
def importEng (lines : List (List Char)) :
    Except String (List (List Char) × List (List Char) × List (ℚ × ℚ)) :=
  importEngLoop lines [] [] [(0, 0)]

/-! ### Claim-side definitions and shared test data -/

/-- Uniform scaling of the thrust values of a discrete curve. -/
def scaleY (c : ℚ) (ts : List (ℚ × ℚ)) : List (ℚ × ℚ) :=
  ts.map (fun p => (p.1, c * p.2))

/-- Claim-side description of the comment list: one entry per line containing
a `;`, the substring from that `;` to the end of the line. -/
def commentsSpec (lines : List (List Char)) : List (List Char) :=
  (lines.filter (fun l => decide (';' ∈ l))).map commentPart

/-- Claim-side description of the comment-stripped non-blank lines, in order. -/
def contentLinesSpec (lines : List (List Char)) : List (List Char) :=
  (lines.map stripComment).filter (fun l => !isBlank l)

/-- Claim-side description of the description record: the first non-blank
comment-stripped line, stripped and tokenized. -/
def descriptionSpec (lines : List (List Char)) : List (List Char) :=
  match contentLinesSpec lines with
  | [] => []
  | d :: _ => splitSpace (pStrip d)

/-- Claim-side data point of one data line: the pair formed from the first two
numeric tokens. -/
def pairOfLine (l : List Char) : ℚ × ℚ :=
  match findNums l with
  | t :: h :: _ => (parseDec t, parseDec h)
  | _ => (0, 0)

/-- Claim-side description of the parsed data points (without the implicit
leading `(0, 0)`): one pair per non-blank line after the description line. -/
def dataPairsSpec (lines : List (List Char)) : List (ℚ × ℚ) :=
  (contentLinesSpec lines).tail.map pairOfLine

/-- The affine time remap described by the spec:
`t' = (t - t0) * (newDuration / oldDuration) + newStart`. -/
def affineRemap (ts : List (ℚ × ℚ)) (nb : ℚ × ℚ) : List (ℚ × ℚ) :=
  ts.map (fun p =>
    ((p.1 - firstTime ts) * ((nb.2 - nb.1) / (lastTime ts - firstTime ts)) + nb.1, p.2))

/-- The sample curve of the spec's concrete scenario. -/
def s5 : List (ℚ × ℚ) := [(0, 0), (1, 10), (2, 20), (3, 10), (4, 0)]

/-! ### Shared lemmas -/

theorem getLastI_concat (l : List (ℚ × ℚ)) (p : ℚ × ℚ) :
    (l ++ [p]).getLastI = p := by
  rw [List.getLastI_eq_getLast?]; simp [List.getLast?_concat]

theorem lastTime_concat (l : List (ℚ × ℚ)) (p : ℚ × ℚ) :
    lastTime (l ++ [p]) = p.1 := by
  simp [lastTime, getLastI_concat]

theorem getLastI_map_fst (f : ℚ × ℚ → ℚ × ℚ) (hf : ∀ p, (f p).1 = p.1)
    (l : List (ℚ × ℚ)) (hl : l ≠ []) : (l.map f).getLastI.1 = l.getLastI.1 := by
  rcases List.eq_nil_or_concat l with h1 | ⟨l2, a, rfl⟩
  · exact absurd h1 hl
  · rw [List.concat_eq_append, List.map_append, List.map_cons, List.map_nil,
      getLastI_concat, getLastI_concat, hf]

theorem getValue_scaleY (c : ℚ) :
    ∀ (ts : List (ℚ × ℚ)) (t : ℚ), getValue (scaleY c ts) t = c * getValue ts t
  | [], t => by simp [getValue, scaleY]
  | [p], t => by
    by_cases h : t = p.1 <;> simp [getValue, scaleY, h]
  | p :: q :: rest, t => by
    have ih := getValue_scaleY c (q :: rest) t
    by_cases h1 : t < p.1
    · simp [getValue, scaleY, h1]
    · by_cases h2 : t ≤ q.1
      · simp only [scaleY, List.map_cons, getValue, h1, if_false, h2, if_true]
        ring
      · simp only [scaleY, List.map_cons, getValue, h1, if_false, h2]
        simpa [scaleY] using ih

theorem trapez_scaleY (c : ℚ) :
    ∀ ts : List (ℚ × ℚ), trapez (scaleY c ts) = c * trapez ts
  | [] => by simp [trapez, scaleY]
  | [p] => by simp [trapez, scaleY]
  | p :: q :: rest => by
    have ih := trapez_scaleY c (q :: rest)
    simp only [scaleY, List.map_cons, trapez] at ih ⊢
    rw [ih]; ring

theorem firstTime_scaleY (c : ℚ) (ts : List (ℚ × ℚ)) :
    firstTime (scaleY c ts) = firstTime ts := by
  cases ts <;> simp [firstTime, scaleY]

theorem lastTime_scaleY (c : ℚ) (ts : List (ℚ × ℚ)) :
    lastTime (scaleY c ts) = lastTime ts := by
  cases ts with
  | nil => simp [lastTime, scaleY]
  | cons p l =>
    simpa [lastTime, scaleY] using
      getLastI_map_fst (fun p => (p.1, c * p.2)) (fun _ => rfl) (p :: l) (by simp)

theorem filter_mapY (c : ℚ) (ts : List (ℚ × ℚ)) (a b : ℚ) :
    (ts.map (fun p => (p.1, c * p.2))).filter (fun p => decide (a < p.1 ∧ p.1 < b)) =
      (ts.filter (fun p => decide (a < p.1 ∧ p.1 < b))).map (fun p => (p.1, c * p.2)) := by
  rw [List.filter_map]; rfl

theorem firstTime_mapY (c : ℚ) (ts : List (ℚ × ℚ)) :
    firstTime (ts.map (fun p => (p.1, c * p.2))) = firstTime ts :=
  firstTime_scaleY c ts

theorem lastTime_mapY (c : ℚ) (ts : List (ℚ × ℚ)) :
    lastTime (ts.map (fun p => (p.1, c * p.2))) = lastTime ts :=
  lastTime_scaleY c ts

theorem getValue_mapY (c : ℚ) (ts : List (ℚ × ℚ)) (t : ℚ) :
    getValue (ts.map (fun p => (p.1, c * p.2))) t = c * getValue ts t :=
  getValue_scaleY c ts t

theorem clipThrust_scaleY (c : ℚ) (ts : List (ℚ × ℚ)) (bt : ℚ × ℚ) :
    clipThrust (scaleY c ts) bt =
      ((clipThrust ts bt).1, scaleY c (clipThrust ts bt).2) := by
  simp only [clipThrust, scaleY, firstTime_mapY, lastTime_mapY, filter_mapY,
    getValue_mapY, List.map_append, List.map_cons, List.map_nil]

theorem integralQ_scaleY (c : ℚ) (ts : List (ℚ × ℚ)) (a b : ℚ) :
    integralQ (scaleY c ts) a b = c * integralQ ts a b := by
  rw [integralQ, integralQ, clipThrust_scaleY, trapez_scaleY]

/-! ### Claims -/

/-- C1.  For a burn window `[a, b]` contained in the sample domain,
`Motor.clipThrust` emits no clamp warning and returns exactly: one synthesized
first sample `(a, thrust(a))`, the original samples with times strictly
between `a` and `b`, and one synthesized last sample `(b, thrust(b))`.  Hence
the result's domain is exactly `[a, b]` and each bound carries exactly one
sample — no duplicate and no missing boundary sample, even when an original
sample lies exactly on a bound. -/
theorem clipThrust_exact_window (ts : List (ℚ × ℚ)) (a b : ℚ)
    (hab : a < b) (ha : firstTime ts ≤ a) (hb : b ≤ lastTime ts) :
    clipThrust ts (a, b) =
      (false, (a, getValue ts a) ::
        (ts.filter (fun p => decide (a < p.1 ∧ p.1 < b)) ++ [(b, getValue ts b)]))
    ∧ firstTime (clipThrust ts (a, b)).2 = a
    ∧ lastTime (clipThrust ts (a, b)).2 = b
    ∧ ((clipThrust ts (a, b)).2.map Prod.fst).count a = 1
    ∧ ((clipThrust ts (a, b)).2.map Prod.fst).count b = 1 := by
  have h1 : ¬ (b > lastTime ts) := not_lt.mpr hb
  have h2 : ¬ (a < firstTime ts) := not_lt.mpr ha
  have hclip : clipThrust ts (a, b) =
      (false, (a, getValue ts a) ::
        (ts.filter (fun p => decide (a < p.1 ∧ p.1 < b)) ++ [(b, getValue ts b)])) := by
    simp only [clipThrust, h1, h2, if_false, decide_False, Bool.or_self]
  have hinterior : ∀ x ∈ (ts.filter (fun p => decide (a < p.1 ∧ p.1 < b))).map Prod.fst,
      a < x ∧ x < b := by
    intro x hx
    obtain ⟨p, hp, rfl⟩ := List.mem_map.1 hx
    exact of_decide_eq_true (List.mem_filter.1 hp).2
  have hna : a ∉ (ts.filter (fun p => decide (a < p.1 ∧ p.1 < b))).map Prod.fst := by
    intro h
    exact absurd (hinterior a h).1 (lt_irrefl a)
  have hnb : b ∉ (ts.filter (fun p => decide (a < p.1 ∧ p.1 < b))).map Prod.fst := by
    intro h
    exact absurd (hinterior b h).2 (lt_irrefl b)
  refine ⟨hclip, ?_, ?_, ?_, ?_⟩
  · rw [hclip]; rfl
  · rw [hclip]
    show lastTime (((a, getValue ts a) ::
      ts.filter (fun p => decide (a < p.1 ∧ p.1 < b))) ++ [(b, getValue ts b)]) = b
    rw [lastTime_concat]
  · rw [hclip]
    simp only [List.map_cons, List.map_append, List.map_nil, List.count_cons_self,
      List.count_append]
    rw [List.count_eq_zero.mpr hna, List.count_eq_zero.mpr (by simp [hab.ne])]
  · rw [hclip]
    simp only [List.map_cons, List.map_append, List.map_nil]
    rw [List.count_cons_of_ne hab.ne', List.count_append,
      List.count_eq_zero.mpr hnb]
    simp

/-- Witness for C1 at the spec's sample curve with a window whose bounds lie
exactly on original samples. -/
theorem clipThrust_exact_window_witness :
    (1 : ℚ) < 3 ∧ firstTime s5 ≤ 1 ∧ (3 : ℚ) ≤ lastTime s5 ∧
      (clipThrust s5 (1, 3) =
        (false, (1, getValue s5 1) ::
          (s5.filter (fun p => decide ((1 : ℚ) < p.1 ∧ p.1 < 3)) ++ [(3, getValue s5 3)]))
      ∧ firstTime (clipThrust s5 (1, 3)).2 = 1
      ∧ lastTime (clipThrust s5 (1, 3)).2 = 3
      ∧ ((clipThrust s5 (1, 3)).2.map Prod.fst).count 1 = 1
      ∧ ((clipThrust s5 (1, 3)).2.map Prod.fst).count 3 = 1) :=
  ⟨by norm_num, by decide, by decide,
    clipThrust_exact_window s5 1 3 (by norm_num) (by decide) (by decide)⟩

theorem motorPreClip_samples_some (ts : List (ℚ × ℚ)) (b : BurnSpec) :
    motorPreClip (ThrustSource.samples ts) (some b) none = .ok (ts, tuple_handler b) := rfl

theorem motorPreClip_samples_none (ts : List (ℚ × ℚ)) :
    motorPreClip (ThrustSource.samples ts) none none =
      .ok (ts, (firstTime ts, lastTime ts)) := rfl

theorem motorPreClip_const_none (c : ℚ) (rs : Option (BurnSpec × ℚ)) :
    motorPreClip (ThrustSource.const c) none rs = .error .burnWindowRequired := rfl

theorem motorPreClip_fn_none (f : ℚ → ℚ) (rs : Option (BurnSpec × ℚ)) :
    motorPreClip (ThrustSource.fn f) none rs = .error .burnWindowRequired := rfl

/-- The single clip-then-derive step `Motor.__init__` performs on the outcome
of the pre-clip phase, as an explicit `Except.map`. -/
theorem motorInit_eq {α β : Type} (src : ThrustSource) (nr : α)
    (btArg : Option BurnSpec) (np : β) (rs : Option (BurnSpec × ℚ)) (tag : String) :
    motorInit src nr btArg np rs tag =
      (motorPreClip src btArg rs).map (fun cb =>
        { csys := csysResolve tag
          thrust := (clipThrust cb.1 cb.2).2
          burn_time := cb.2
          burnStartTime := cb.2.1
          burnOutTime := cb.2.2
          burnDuration := cb.2.2 - cb.2.1
          nozzleRadius := nr
          nozzlePosition := np
          totalImpulse := integralQ (clipThrust cb.1 cb.2).2 cb.2.1 cb.2.2
          averageThrust :=
            integralQ (clipThrust cb.1 cb.2).2 cb.2.1 cb.2.2 / (cb.2.2 - cb.2.1)
          warned := (clipThrust cb.1 cb.2).1 }) := by
  cases h : motorPreClip src btArg rs with
  | error e => simp only [motorInit, h]; rfl
  | ok cb => obtain ⟨curve, bt⟩ := cb; simp only [motorInit, h]; rfl

/-- C2.  `Motor.reshapeThrustCurve` returns the affine time image
`t' = (t - t0) * (newDuration / oldDuration) + newStart` of the original
samples with the thrust values uniformly scaled by the requested impulse over
the impulse of the time-remapped curve; the result's domain is the new window
and its integral over that window is exactly the requested impulse. -/
theorem firstTime_affineRemap (ts : List (ℚ × ℚ)) (nb : ℚ × ℚ) (hne : ts ≠ []) :
    firstTime (affineRemap ts nb) = nb.1 := by
  obtain ⟨p, l, rfl⟩ := List.exists_cons_of_ne_nil hne
  simp [affineRemap, firstTime]

theorem lastTime_affineRemap (ts : List (ℚ × ℚ)) (nb : ℚ × ℚ) (hne : ts ≠ [])
    (hsub : lastTime ts - firstTime ts ≠ 0) :
    lastTime (affineRemap ts nb) = nb.2 := by
  rcases List.eq_nil_or_concat ts with h | ⟨l2, q, rfl⟩
  · exact absurd h hne
  · rw [List.concat_eq_append] at hsub ⊢
    rw [affineRemap, List.map_append, List.map_cons, List.map_nil, lastTime_concat]
    rw [lastTime_concat] at hsub ⊢
    field_simp

theorem reshapeThrustCurve_affine_impulse (ts : List (ℚ × ℚ)) (nbt : BurnSpec)
    (imp : ℚ) (hne : ts ≠ []) (hdur : firstTime ts ≠ lastTime ts)
    (hold : integralQ (affineRemap ts (tuple_handler nbt)) (tuple_handler nbt).1
      (tuple_handler nbt).2 ≠ 0) :
    reshapeThrustCurve ts nbt imp =
      scaleY (imp / integralQ (affineRemap ts (tuple_handler nbt)) (tuple_handler nbt).1
          (tuple_handler nbt).2)
        (affineRemap ts (tuple_handler nbt))
    ∧ firstTime (reshapeThrustCurve ts nbt imp) = (tuple_handler nbt).1
    ∧ lastTime (reshapeThrustCurve ts nbt imp) = (tuple_handler nbt).2
    ∧ integralQ (reshapeThrustCurve ts nbt imp) (tuple_handler nbt).1
        (tuple_handler nbt).2 = imp := by
  set nb := tuple_handler nbt with hnb
  have hsub : lastTime ts - firstTime ts ≠ 0 := sub_ne_zero_of_ne (Ne.symm hdur)
  have hremap : ts.map (fun p =>
      ((nb.2 - nb.1) / (lastTime ts - firstTime ts) * p.1 +
        (nb.1 - (nb.2 - nb.1) / (lastTime ts - firstTime ts) * firstTime ts), p.2)) =
      affineRemap ts nb := by
    rw [affineRemap]
    apply List.map_congr_left
    intro p _
    simp only [Prod.mk.injEq]
    exact ⟨by ring, trivial⟩
  have hmap : ∀ C : ℚ, ts.map (fun p =>
      ((nb.2 - nb.1) / (lastTime ts - firstTime ts) * p.1 +
        (nb.1 - (nb.2 - nb.1) / (lastTime ts - firstTime ts) * firstTime ts), C * p.2)) =
      scaleY C (affineRemap ts nb) := by
    intro C
    rw [scaleY, affineRemap, List.map_map]
    apply List.map_congr_left
    intro p _
    simp only [Function.comp_apply, Prod.mk.injEq]
    exact ⟨by ring, trivial⟩
  have hbody : reshapeThrustCurve ts nbt imp =
      scaleY (imp / integralQ (affineRemap ts nb) nb.1 nb.2) (affineRemap ts nb) := by
    simp only [reshapeThrustCurve, ← hnb]
    rw [hremap]
    exact hmap _
  refine ⟨hbody, ?_, ?_, ?_⟩
  · rw [hbody, scaleY, firstTime_mapY, firstTime_affineRemap ts nb hne]
  · rw [hbody, scaleY, lastTime_mapY, lastTime_affineRemap ts nb hne hsub]
  · rw [hbody, integralQ_scaleY, div_mul_cancel₀ _ hold]

/-- Witness for C2: the spec's scenario — the `[0,4]` curve reshaped to
duration 8 and impulse 80 has domain `[0,8]` (width 8) and integral 80. -/
theorem reshapeThrustCurve_affine_impulse_witness :
    s5 ≠ [] ∧ firstTime s5 ≠ lastTime s5 ∧
      integralQ (affineRemap s5 (tuple_handler (BurnSpec.one 8)))
        (tuple_handler (BurnSpec.one 8)).1 (tuple_handler (BurnSpec.one 8)).2 ≠ 0 ∧
      (reshapeThrustCurve s5 (BurnSpec.one 8) 80 =
        scaleY (80 / integralQ (affineRemap s5 (tuple_handler (BurnSpec.one 8)))
            (tuple_handler (BurnSpec.one 8)).1 (tuple_handler (BurnSpec.one 8)).2)
          (affineRemap s5 (tuple_handler (BurnSpec.one 8)))
      ∧ firstTime (reshapeThrustCurve s5 (BurnSpec.one 8) 80) =
          (tuple_handler (BurnSpec.one 8)).1
      ∧ lastTime (reshapeThrustCurve s5 (BurnSpec.one 8) 80) =
          (tuple_handler (BurnSpec.one 8)).2
      ∧ integralQ (reshapeThrustCurve s5 (BurnSpec.one 8) 80)
          (tuple_handler (BurnSpec.one 8)).1 (tuple_handler (BurnSpec.one 8)).2 = 80) :=
  ⟨by decide, by decide,
    by norm_num [integralQ, clipThrust, trapez, getValue, affineRemap, tuple_handler,
      s5, firstTime, lastTime, List.getLastI],
    reshapeThrustCurve_affine_impulse s5 (BurnSpec.one 8) 80 (by decide) (by decide)
      (by norm_num [integralQ, clipThrust, trapez, getValue, affineRemap, tuple_handler,
        s5, firstTime, lastTime, List.getLastI])⟩

/-- The fully reduced outcome of `Motor.__init__` for a discrete source with
an explicit burn-time argument and no reshape. -/
theorem motorInit_samples_some {α β : Type} (ts : List (ℚ × ℚ)) (nr : α)
    (b : BurnSpec) (np : β) (tag : String) :
    motorInit (ThrustSource.samples ts) nr (some b) np none tag =
      .ok { csys := csysResolve tag
            thrust := (clipThrust ts (tuple_handler b)).2
            burn_time := tuple_handler b
            burnStartTime := (tuple_handler b).1
            burnOutTime := (tuple_handler b).2
            burnDuration := (tuple_handler b).2 - (tuple_handler b).1
            nozzleRadius := nr
            nozzlePosition := np
            totalImpulse := integralQ (clipThrust ts (tuple_handler b)).2
              (tuple_handler b).1 (tuple_handler b).2
            averageThrust := integralQ (clipThrust ts (tuple_handler b)).2
              (tuple_handler b).1 (tuple_handler b).2 /
              ((tuple_handler b).2 - (tuple_handler b).1)
            warned := (clipThrust ts (tuple_handler b)).1 } := rfl

/-- The fully reduced outcome of `Motor.__init__` for a discrete source with
no burn-time argument and no reshape: the window defaults to the curve's
sample bounds. -/
theorem motorInit_samples_none {α β : Type} (ts : List (ℚ × ℚ)) (nr : α)
    (np : β) (tag : String) :
    motorInit (ThrustSource.samples ts) nr none np none tag =
      .ok { csys := csysResolve tag
            thrust := (clipThrust ts (firstTime ts, lastTime ts)).2
            burn_time := (firstTime ts, lastTime ts)
            burnStartTime := firstTime ts
            burnOutTime := lastTime ts
            burnDuration := lastTime ts - firstTime ts
            nozzleRadius := nr
            nozzlePosition := np
            totalImpulse := integralQ (clipThrust ts (firstTime ts, lastTime ts)).2
              (firstTime ts) (lastTime ts)
            averageThrust := integralQ (clipThrust ts (firstTime ts, lastTime ts)).2
              (firstTime ts) (lastTime ts) / (lastTime ts - firstTime ts)
            warned := (clipThrust ts (firstTime ts, lastTime ts)).1 } := rfl

/-- The fully reduced outcome of `Motor.__init__` for a constant source with
an explicit burn-time argument and no reshape: the source is discretized at
50 points over the window. -/
theorem motorInit_const_some {α β : Type} (c : ℚ) (nr : α) (b : BurnSpec)
    (np : β) (tag : String) :
    motorInit (ThrustSource.const c) nr (some b) np none tag =
      (let curve := setDiscrete (ThrustSource.const c).evalAt
        (tuple_handler b).1 (tuple_handler b).2 50
      .ok { csys := csysResolve tag
            thrust := (clipThrust curve (tuple_handler b)).2
            burn_time := tuple_handler b
            burnStartTime := (tuple_handler b).1
            burnOutTime := (tuple_handler b).2
            burnDuration := (tuple_handler b).2 - (tuple_handler b).1
            nozzleRadius := nr
            nozzlePosition := np
            totalImpulse := integralQ (clipThrust curve (tuple_handler b)).2
              (tuple_handler b).1 (tuple_handler b).2
            averageThrust := integralQ (clipThrust curve (tuple_handler b)).2
              (tuple_handler b).1 (tuple_handler b).2 /
              ((tuple_handler b).2 - (tuple_handler b).1)
            warned := (clipThrust curve (tuple_handler b)).1 }) := rfl

/-- The fully reduced outcome of `Motor.__init__` for a callable source with
an explicit burn-time argument and no reshape. -/
theorem motorInit_fn_some {α β : Type} (f : ℚ → ℚ) (nr : α) (b : BurnSpec)
    (np : β) (tag : String) :
    motorInit (ThrustSource.fn f) nr (some b) np none tag =
      (let curve := setDiscrete (ThrustSource.fn f).evalAt
        (tuple_handler b).1 (tuple_handler b).2 50
      .ok { csys := csysResolve tag
            thrust := (clipThrust curve (tuple_handler b)).2
            burn_time := tuple_handler b
            burnStartTime := (tuple_handler b).1
            burnOutTime := (tuple_handler b).2
            burnDuration := (tuple_handler b).2 - (tuple_handler b).1
            nozzleRadius := nr
            nozzlePosition := np
            totalImpulse := integralQ (clipThrust curve (tuple_handler b)).2
              (tuple_handler b).1 (tuple_handler b).2
            averageThrust := integralQ (clipThrust curve (tuple_handler b)).2
              (tuple_handler b).1 (tuple_handler b).2 /
              ((tuple_handler b).2 - (tuple_handler b).1)
            warned := (clipThrust curve (tuple_handler b)).1 }) := rfl

/-- C3.  `GenericMotor.__init__` forwards its arguments to the parent
constructor positionally shifted: the caller's `burn_time` lands in the
parent's `nozzleRadius` parameter, the caller's `nozzleRadius` in the parent's
`burn_time` parameter, and `throatRadius` in the parent's `nozzlePosition`
parameter.  Consequently the stored `nozzleRadius` attribute is the caller's
`burn_time` value, and the burn window is obtained by tuple-handling the
caller's `nozzleRadius` value (and the thrust curve by clipping to that
window), not from the `burn_time` argument. -/
theorem genericMotor_arg_shift (src : ThrustSource) (bt : BurnSpec)
    (cr ch cp pm nr tr : ℚ) (rs : Option (BurnSpec × ℚ)) :
    genericMotorInit src bt cr ch cp pm nr tr rs =
      motorInit src bt (some (BurnSpec.one nr)) tr rs "nozzleToCombustionChamber"
    ∧ ∀ st, genericMotorInit src bt cr ch cp pm nr tr none = .ok st →
        st.nozzleRadius = bt ∧ st.nozzlePosition = tr
        ∧ st.burn_time = tuple_handler (BurnSpec.one nr)
        ∧ ∀ ts, src = ThrustSource.samples ts →
            st.thrust = (clipThrust ts (tuple_handler (BurnSpec.one nr))).2 := by
  refine ⟨rfl, ?_⟩
  intro st hok
  cases src with
  | samples ts =>
    rw [genericMotorInit, motorInit_samples_some, Except.ok.injEq] at hok
    subst hok
    exact ⟨rfl, rfl, rfl, fun ts2 h2 => by cases h2; rfl⟩
  | const c =>
    rw [genericMotorInit, motorInit_const_some, Except.ok.injEq] at hok
    subst hok
    exact ⟨rfl, rfl, rfl, fun ts2 h2 => ThrustSource.noConfusion h2⟩
  | fn f =>
    rw [genericMotorInit, motorInit_fn_some, Except.ok.injEq] at hok
    subst hok
    exact ⟨rfl, rfl, rfl, fun ts2 h2 => ThrustSource.noConfusion h2⟩

/-- Witness for C3: a concrete `GenericMotor` built over the spec's sample
curve with `burn_time = BurnSpec.one 99` and `nozzleRadius = 4` stores
`BurnSpec.one 99` as its `nozzleRadius` attribute and `(0, 4)` (the
tuple-handled `nozzleRadius` argument) as its burn window. -/
theorem genericMotor_arg_shift_witness :
    ∃ st, genericMotorInit (ThrustSource.samples s5) (BurnSpec.one 99) 1 1 0 5 4 1 none =
        .ok st
      ∧ st.nozzleRadius = BurnSpec.one 99
      ∧ st.burn_time = tuple_handler (BurnSpec.one 4)
      ∧ st.thrust = (clipThrust s5 (tuple_handler (BurnSpec.one 4))).2 := by
  have hok : genericMotorInit (ThrustSource.samples s5) (BurnSpec.one 99) 1 1 0 5 4 1 none =
      .ok _ := motorInit_samples_some s5 (BurnSpec.one 99) (BurnSpec.one 4) 1
        "nozzleToCombustionChamber"
  have h := (genericMotor_arg_shift (ThrustSource.samples s5) (BurnSpec.one 99)
    1 1 0 5 4 1 none).2 _ hok
  exact ⟨_, hok, h.1, h.2.2.1, h.2.2.2 s5 rfl⟩

/-- C4.  With no burn window supplied, construction of a `Motor` from a bare
constant or from a callable fails with the burn-window-required configuration
error — before discretization, reshaping or clipping take place (the error is
independent of the reshape argument) — while a discrete sample source defaults
the burn window to the first and last sample times. -/
theorem motor_burn_window_default_or_required :
    (∀ (c : ℚ) (α β : Type) (nr : α) (np : β) (rs : Option (BurnSpec × ℚ)) (tag : String),
        motorInit (ThrustSource.const c) nr none np rs tag = .error .burnWindowRequired)
    ∧ (∀ (f : ℚ → ℚ) (α β : Type) (nr : α) (np : β) (rs : Option (BurnSpec × ℚ))
        (tag : String),
        motorInit (ThrustSource.fn f) nr none np rs tag = .error .burnWindowRequired)
    ∧ (∀ (ts : List (ℚ × ℚ)) (α β : Type) (nr : α) (np : β) (tag : String) st,
        motorInit (ThrustSource.samples ts) nr none np none tag = .ok st →
          st.burn_time = (firstTime ts, lastTime ts)) := by
  refine ⟨fun c α β nr np rs tag => ?_, fun f α β nr np rs tag => ?_,
    fun ts α β nr np tag st hok => ?_⟩
  · rw [motorInit_eq, motorPreClip_const_none]; rfl
  · rw [motorInit_eq, motorPreClip_fn_none]; rfl
  · rw [motorInit_samples_none, Except.ok.injEq] at hok
    subst hok; rfl

/-- Witness for C4: the spec's error scenario (constant source `25.0`, no burn
window) and default-window scenario (the `[0,4]` sample curve). -/
theorem motor_burn_window_default_or_required_witness :
    motorInit (ThrustSource.const 25) (1 : ℚ) none (0 : ℚ) none
        "nozzleToCombustionChamber" = .error .burnWindowRequired
    ∧ ∃ st, motorInit (ThrustSource.samples s5) (1 : ℚ) none (0 : ℚ) none
          "nozzleToCombustionChamber" = .ok st
        ∧ st.burn_time = (firstTime s5, lastTime s5) := by
  refine ⟨motor_burn_window_default_or_required.1 25 ℚ ℚ 1 0 none
    "nozzleToCombustionChamber", ⟨_, motorInit_samples_none s5 1 0
    "nozzleToCombustionChamber", ?_⟩⟩
  exact motor_burn_window_default_or_required.2.2 s5 ℚ ℚ 1 0
    "nozzleToCombustionChamber" _ (motorInit_samples_none s5 1 0 "nozzleToCombustionChamber")

theorem motorPreClip_some_none (src : ThrustSource) (b : BurnSpec) :
    motorPreClip src (some b) none = .ok (rawCurve src (tuple_handler b), tuple_handler b) :=
  rfl

theorem motorPreClip_some_reshape (src : ThrustSource) (b : BurnSpec)
    (nbt : BurnSpec) (imp : ℚ) :
    motorPreClip src (some b) (some (nbt, imp)) =
      .ok (reshapeThrustCurve (rawCurve src (tuple_handler b)) nbt imp,
        (firstTime (reshapeThrustCurve (rawCurve src (tuple_handler b)) nbt imp),
          lastTime (reshapeThrustCurve (rawCurve src (tuple_handler b)) nbt imp))) := rfl

theorem motorPreClip_samples_none_reshape (ts : List (ℚ × ℚ)) (nbt : BurnSpec) (imp : ℚ) :
    motorPreClip (ThrustSource.samples ts) none (some (nbt, imp)) =
      .ok (reshapeThrustCurve ts nbt imp,
        (firstTime (reshapeThrustCurve ts nbt imp),
          lastTime (reshapeThrustCurve ts nbt imp))) := rfl

/-- C7 (amended).  The tag `"nozzleToCombustionChamber"` resolves to
coordinate sign `+1` and `"combustionChamberToNozzle"` to `-1`; any other tag
leaves the coordinate sign unset (`none`) — the source `if/elif` has no `else`
branch — and construction proceeds exactly as with a recognized tag, the
`csys` field apart: it does not fail. -/
theorem csys_resolution :
    csysResolve "nozzleToCombustionChamber" = some 1
    ∧ csysResolve "combustionChamberToNozzle" = some (-1)
    ∧ (∀ tag : String, tag ≠ "nozzleToCombustionChamber" →
        tag ≠ "combustionChamberToNozzle" → csysResolve tag = none)
    ∧ (∀ (α β : Type) (src : ThrustSource) (nr : α) (btArg : Option BurnSpec) (np : β)
        (rs : Option (BurnSpec × ℚ)) (tag : String),
        motorInit src nr btArg np rs tag =
          (motorInit src nr btArg np rs "nozzleToCombustionChamber").map
            (fun st => { st with csys := csysResolve tag })) := by
  refine ⟨rfl, rfl, ?_, ?_⟩
  · intro tag h1 h2
    rw [csysResolve, if_neg h1, if_neg h2]
  · intro α β src nr btArg np rs tag
    rw [motorInit_eq, motorInit_eq]
    cases motorPreClip src btArg rs with
    | error e => rfl
    | ok cb => rfl

/-- Witness for C7 at the unrecognized tag `"x"`. -/
theorem csys_resolution_witness :
    ("x" : String) ≠ "nozzleToCombustionChamber"
    ∧ ("x" : String) ≠ "combustionChamberToNozzle"
    ∧ csysResolve "x" = none :=
  ⟨by decide, by decide, csys_resolution.2.2.1 "x" (by decide) (by decide)⟩

/-- Counterexample to C7 as stated: constructing a `Motor` with the
unrecognized orientation tag `"badTag"` does not fail — it succeeds, leaving
the coordinate sign unset. -/
theorem csys_invalid_tag_counterexample :
    (motorInit (ThrustSource.samples s5) (1 : ℚ) none (0 : ℚ) none "badTag").map
      (fun st => st.csys) = .ok none := by
  rw [motorInit_samples_none]; rfl

/-- C5 (amended).  When the requested window extends beyond the curve's
sample domain, `Motor.clipThrust` clamps the start up to the first sample time
and/or the end down to the last sample time, sets the warning flag (a
non-fatal diagnostic — `clipThrust` is total and never raises), and produces
exactly the samples of the clip at the clamped window.  A window out of range
on both sides yields a successfully constructed motor whose thrust curve
equals the default-window one and whose warning flag is set, while the stored
burn window keeps the requested bounds. -/
theorem clipThrust_clamps_and_warns (ts : List (ℚ × ℚ)) (a b : ℚ)
    (h : lastTime ts < b ∨ a < firstTime ts) :
    clipThrust ts (a, b) =
      (true, (clipThrust ts (if a < firstTime ts then firstTime ts else a,
        if b > lastTime ts then lastTime ts else b)).2)
    ∧ (lastTime ts < b → a < firstTime ts →
        ∀ (α β : Type) (nr : α) (np : β) (tag : String),
        ∃ st st2,
          motorInit (ThrustSource.samples ts) nr (some (BurnSpec.pair a b)) np none tag =
            .ok st
          ∧ motorInit (ThrustSource.samples ts) nr none np none tag = .ok st2
          ∧ st.warned = true ∧ st.thrust = st2.thrust ∧ st.burn_time = (a, b)) := by
  have hb1 : (if (if b > lastTime ts then lastTime ts else b) > lastTime ts then lastTime ts
      else (if b > lastTime ts then lastTime ts else b)) =
      (if b > lastTime ts then lastTime ts else b) := by
    by_cases hb : b > lastTime ts
    · simp [hb]
    · simp [hb]
  have ha1 : (if (if a < firstTime ts then firstTime ts else a) < firstTime ts then firstTime ts
      else (if a < firstTime ts then firstTime ts else a)) =
      (if a < firstTime ts then firstTime ts else a) := by
    by_cases ha : a < firstTime ts
    · simp [ha]
    · simp [ha]
  have hw : (decide (b > lastTime ts) || decide (a < firstTime ts)) = true := by
    rcases h with h | h
    · simp [h]
    · simp [h]
  have hmain : clipThrust ts (a, b) =
      (true, (clipThrust ts (if a < firstTime ts then firstTime ts else a,
        if b > lastTime ts then lastTime ts else b)).2) := by
    simp only [clipThrust, hb1, ha1, hw]
  refine ⟨hmain, ?_⟩
  intro hb ha α β nr np tag
  refine ⟨_, _, motorInit_samples_some ts nr (BurnSpec.pair a b) np tag,
    motorInit_samples_none ts nr np tag, ?_, ?_, rfl⟩
  · show (clipThrust ts (tuple_handler (BurnSpec.pair a b))).1 = true
    simp [clipThrust, tuple_handler, hw]
  · show (clipThrust ts (tuple_handler (BurnSpec.pair a b))).2 =
      (clipThrust ts (firstTime ts, lastTime ts)).2
    have : tuple_handler (BurnSpec.pair a b) = (a, b) := rfl
    rw [this, hmain, if_pos ha, if_pos hb]

/-- Witness for C5: the spec's clamp scenario — requested window `(-1, 5)`
against the `[0,4]` sample curve. -/
theorem clipThrust_clamps_and_warns_witness :
    (lastTime s5 < 5 ∨ (-1 : ℚ) < firstTime s5)
    ∧ clipThrust s5 (-1, 5) =
        (true, (clipThrust s5 (if (-1 : ℚ) < firstTime s5 then firstTime s5 else -1,
          if (5 : ℚ) > lastTime s5 then lastTime s5 else 5)).2)
    ∧ ∃ st st2,
        motorInit (ThrustSource.samples s5) (1 : ℚ) (some (BurnSpec.pair (-1) 5)) (0 : ℚ)
          none "nozzleToCombustionChamber" = .ok st
        ∧ motorInit (ThrustSource.samples s5) (1 : ℚ) none (0 : ℚ) none
            "nozzleToCombustionChamber" = .ok st2
        ∧ st.warned = true ∧ st.thrust = st2.thrust ∧ st.burn_time = (-1, 5) :=
  ⟨by decide,
    (clipThrust_clamps_and_warns s5 (-1) 5 (by decide)).1,
    (clipThrust_clamps_and_warns s5 (-1) 5 (by decide)).2 (by decide) (by decide)
      ℚ ℚ 1 0 "nozzleToCombustionChamber"⟩

/-- Counterexample to C5's final clause as stated: with the requested window
`(-1, 5)` the construction does not otherwise proceed as in the
default-window case — the stored burn-window attributes are computed from the
requested `(-1, 5)`, so `burnDuration` is `6` instead of the default-window
`4`. -/
theorem motor_clamped_attrs_counterexample :
    (motorInit (ThrustSource.samples s5) (1 : ℚ) (some (BurnSpec.pair (-1) 5)) (0 : ℚ)
      none "nozzleToCombustionChamber").map (fun st => st.burnDuration) = .ok 6
    ∧ (motorInit (ThrustSource.samples s5) (1 : ℚ) none (0 : ℚ) none
      "nozzleToCombustionChamber").map (fun st => st.burnDuration) = .ok 4
    ∧ (6 : ℚ) ≠ 4 := by
  refine ⟨?_, ?_, by norm_num⟩
  · rw [motorInit_samples_some]
    show Except.ok ((tuple_handler (BurnSpec.pair (-1) 5)).2 -
      (tuple_handler (BurnSpec.pair (-1) 5)).1) = Except.ok 6
    norm_num [tuple_handler]
  · rw [motorInit_samples_none]
    show Except.ok (lastTime s5 - firstTime s5) = Except.ok 4
    norm_num [firstTime, lastTime, s5, List.getLastI]

theorem firstTime_clipThrust (ts : List (ℚ × ℚ)) (bt : ℚ × ℚ) :
    firstTime (clipThrust ts bt).2 =
      (if bt.1 < firstTime ts then firstTime ts else bt.1) := rfl

theorem lastTime_clipThrust (ts : List (ℚ × ℚ)) (bt : ℚ × ℚ) :
    lastTime (clipThrust ts bt).2 =
      (if bt.2 > lastTime ts then lastTime ts else bt.2) := by
  simp only [clipThrust]
  rw [← List.cons_append, lastTime_concat]

/-- C6 (amended).  The stored thrust curve's sample domain equals the stored
burn window whenever that window is contained in the pre-clip curve's sample
domain; a reshape overwrites the burn window with the reshaped curve's own
sample bounds (so the containment holds by construction after a reshape).
When the requested window extends beyond the curve's domain the clip clamps
the curve but the stored burn window keeps the requested bounds, so the two
differ. -/
theorem motor_domain_eq_window (α β : Type) (src : ThrustSource) (nr : α)
    (btArg : Option BurnSpec) (np : β) (rs : Option (BurnSpec × ℚ)) (tag : String)
    (curve : List (ℚ × ℚ)) (bt : ℚ × ℚ) (st : MotorState α β)
    (hpre : motorPreClip src btArg rs = .ok (curve, bt))
    (hok : motorInit src nr btArg np rs tag = .ok st) :
    (firstTime curve ≤ bt.1 → bt.2 ≤ lastTime curve →
      (firstTime st.thrust, lastTime st.thrust) = st.burn_time)
    ∧ (∀ nbt imp, rs = some (nbt, imp) → bt = (firstTime curve, lastTime curve)) := by
  rw [motorInit_eq, hpre] at hok
  simp only [Except.map, Except.ok.injEq] at hok
  subst hok
  constructor
  · intro ha hb
    show (firstTime (clipThrust curve bt).2, lastTime (clipThrust curve bt).2) = bt
    rw [firstTime_clipThrust, lastTime_clipThrust, if_neg (not_lt.mpr ha),
      if_neg (not_lt.mpr hb)]
  · intro nbt imp hrs
    subst hrs
    cases btArg with
    | some b =>
      rw [motorPreClip_some_reshape, Except.ok.injEq, Prod.mk.injEq] at hpre
      obtain ⟨hcurve, hbt⟩ := hpre
      rw [← hbt, ← hcurve]
    | none =>
      cases src with
      | samples ts =>
        rw [motorPreClip_samples_none_reshape, Except.ok.injEq, Prod.mk.injEq] at hpre
        obtain ⟨hcurve, hbt⟩ := hpre
        rw [← hbt, ← hcurve]
      | const c => exact absurd hpre (by rw [motorPreClip_const_none]; simp)
      | fn f => exact absurd hpre (by rw [motorPreClip_fn_none]; simp)

/-- Witness for C6 at an in-range window: the motor built over the `[0,4]`
curve with window `(1, 3)` stores a curve whose domain is exactly `(1, 3)`. -/
theorem motor_domain_eq_window_witness :
    motorPreClip (ThrustSource.samples s5) (some (BurnSpec.pair 1 3)) none = .ok (s5, (1, 3))
    ∧ ∃ st, motorInit (ThrustSource.samples s5) (1 : ℚ) (some (BurnSpec.pair 1 3)) (0 : ℚ)
          none "nozzleToCombustionChamber" = .ok st
        ∧ (firstTime st.thrust, lastTime st.thrust) = st.burn_time := by
  have hpre : motorPreClip (ThrustSource.samples s5) (some (BurnSpec.pair 1 3)) none =
      .ok (s5, (1, 3)) := rfl
  have hok := motorInit_samples_some s5 (1 : ℚ) (BurnSpec.pair 1 3) (0 : ℚ)
    "nozzleToCombustionChamber"
  exact ⟨hpre, _, hok,
    (motor_domain_eq_window ℚ ℚ (ThrustSource.samples s5) 1 (some (BurnSpec.pair 1 3)) 0
      none "nozzleToCombustionChamber" s5 (1, 3) _ hpre hok).1 (by decide) (by decide)⟩

/-- Counterexample to C6 as stated: the motor built over the `[0,4]` curve
with the requested window `(-1, 5)` is constructed successfully, but its
stored thrust curve's domain is `(0, 4)` while its stored burn window is
`(-1, 5)`. -/
theorem motor_domain_window_counterexample :
    (motorInit (ThrustSource.samples s5) (1 : ℚ) (some (BurnSpec.pair (-1) 5)) (0 : ℚ)
      none "nozzleToCombustionChamber").map
        (fun st => ((firstTime st.thrust, lastTime st.thrust), st.burn_time)) =
      .ok ((0, 4), (-1, 5))
    ∧ ((0 : ℚ), (4 : ℚ)) ≠ ((-1 : ℚ), (5 : ℚ)) := by
  exact ⟨by rw [motorInit_samples_some]; rfl, by decide⟩

theorem motorInit_ok_fields {α β : Type} (src : ThrustSource) (nr : α)
    (btArg : Option BurnSpec) (np : β) (rs : Option (BurnSpec × ℚ)) (tag : String)
    (st : MotorState α β) (hok : motorInit src nr btArg np rs tag = .ok st) :
    st.totalImpulse = integralQ st.thrust st.burn_time.1 st.burn_time.2
    ∧ st.averageThrust = st.totalImpulse / st.burnDuration
    ∧ st.burnDuration = st.burn_time.2 - st.burn_time.1 := by
  rw [motorInit_eq] at hok
  cases hpre : motorPreClip src btArg rs with
  | error e => rw [hpre] at hok; exact absurd hok (by simp [Except.map])
  | ok cb =>
    obtain ⟨curve, bt⟩ := cb
    rw [hpre] at hok
    simp only [Except.map, Except.ok.injEq] at hok
    subst hok
    exact ⟨rfl, rfl, rfl⟩

/-- C8.  For every successfully constructed `Motor`, `totalImpulse` is the
definite integral of the stored thrust curve over the stored burn window and
`averageThrust` is `totalImpulse / burnDuration`; hence, whenever the burn
duration is nonzero, `averageThrust * burnDuration = totalImpulse` — exactly,
since the embedding computes in `ℚ`. -/
theorem motor_impulse_average (α β : Type) (src : ThrustSource) (nr : α)
    (btArg : Option BurnSpec) (np : β) (rs : Option (BurnSpec × ℚ)) (tag : String)
    (st : MotorState α β) (hok : motorInit src nr btArg np rs tag = .ok st) :
    st.totalImpulse = integralQ st.thrust st.burn_time.1 st.burn_time.2
    ∧ st.averageThrust = st.totalImpulse / st.burnDuration
    ∧ (st.burnDuration ≠ 0 → st.averageThrust * st.burnDuration = st.totalImpulse) := by
  obtain ⟨h1, h2, h3⟩ := motorInit_ok_fields src nr btArg np rs tag st hok
  exact ⟨h1, h2, fun h => by rw [h2]; exact div_mul_cancel₀ _ h⟩

/-- Witness for C8: the default-window motor over the spec's `[0,4]` curve. -/
theorem motor_impulse_average_witness :
    ∃ st : MotorState ℚ ℚ,
      motorInit (ThrustSource.samples s5) (1 : ℚ) none (0 : ℚ) none
          "nozzleToCombustionChamber" = .ok st
      ∧ st.burnDuration ≠ 0
      ∧ st.totalImpulse = integralQ st.thrust st.burn_time.1 st.burn_time.2
      ∧ st.averageThrust * st.burnDuration = st.totalImpulse := by
  have hok := motorInit_samples_none s5 (1 : ℚ) (0 : ℚ) "nozzleToCombustionChamber"
  have hdur : (lastTime s5 - firstTime s5 : ℚ) ≠ 0 := by
    norm_num [firstTime, lastTime, s5, List.getLastI]
  have h := motor_impulse_average ℚ ℚ (ThrustSource.samples s5) 1 none 0 none
    "nozzleToCombustionChamber" _ hok
  exact ⟨_, hok, hdur, h.1, h.2.2 hdur⟩

/-- C9.  For every successfully constructed `Motor` with positive propellant
initial mass (and nonzero total impulse, so the exhaust velocity is a
meaningful constant), `exhaustVelocity = totalImpulse / propellantInitialMass`,
`massDot(t) = -thrust(t) / exhaustVelocity` for all `t`, and the integral of
`massDot` over the burn window equals `-propellantInitialMass` — exactly,
since the embedding computes in `ℚ`. -/
theorem motor_massDot_conservation (α β : Type) (src : ThrustSource) (nr : α)
    (btArg : Option BurnSpec) (np : β) (rs : Option (BurnSpec × ℚ)) (tag : String)
    (st : MotorState α β) (m : ℚ) (hok : motorInit src nr btArg np rs tag = .ok st)
    (hm : 0 < m) (hI : st.totalImpulse ≠ 0) :
    exhaustVelocity st m = st.totalImpulse / m
    ∧ (∀ t, getValue (massDot st m) t = -1 * getValue st.thrust t / exhaustVelocity st m)
    ∧ integralQ (massDot st m) st.burn_time.1 st.burn_time.2 = -m := by
  have hmd : massDot st m = scaleY (-1 / exhaustVelocity st m) st.thrust := by
    rw [massDot, scaleY]
    apply List.map_congr_left
    intro p _
    simp only [Prod.mk.injEq]
    exact ⟨trivial, by ring⟩
  have hm0 : m ≠ 0 := ne_of_gt hm
  refine ⟨rfl, ?_, ?_⟩
  · intro t
    rw [hmd, getValue_scaleY]
    ring
  · rw [hmd, integralQ_scaleY,
      (motorInit_ok_fields src nr btArg np rs tag st hok).1.symm, exhaustVelocity]
    field_simp

/-- Witness for C9: the default-window motor over the spec's `[0,4]` curve
with propellant initial mass `2`. -/
theorem motor_massDot_conservation_witness :
    ∃ st : MotorState ℚ ℚ,
      motorInit (ThrustSource.samples s5) (1 : ℚ) none (0 : ℚ) none
          "nozzleToCombustionChamber" = .ok st
      ∧ (0 : ℚ) < 2 ∧ st.totalImpulse ≠ 0
      ∧ integralQ (massDot st 2) st.burn_time.1 st.burn_time.2 = -2 := by
  have hok := motorInit_samples_none s5 (1 : ℚ) (0 : ℚ) "nozzleToCombustionChamber"
  have hI : (integralQ (clipThrust s5 (firstTime s5, lastTime s5)).2
      (firstTime s5) (lastTime s5) : ℚ) ≠ 0 := by
    norm_num [integralQ, clipThrust, trapez, getValue, s5, firstTime, lastTime,
      List.getLastI]
  have h := motor_massDot_conservation ℚ ℚ (ThrustSource.samples s5) 1 none 0 none
    "nozzleToCombustionChamber" _ 2 hok (by norm_num) hI
  exact ⟨_, hok, by norm_num, hI, h.2.2⟩


theorem splitSpace_ne_nil (l : List Char) : splitSpace l ≠ [] := by
  cases l with
  | nil => simp [splitSpace]
  | cons c rest =>
    by_cases hc : c = ' '
    · simp [splitSpace, hc]
    · simp only [splitSpace, hc, if_false]
      cases splitSpace rest <;> simp


theorem importEngLoop_step_blank (l : List Char) (rest cs ds : List (List Char))
    (pts : List (ℚ × ℚ)) (hbl : isBlank (stripComment l) = true) :
    importEngLoop (l :: rest) cs ds pts =
      importEngLoop rest (if ';' ∈ l then cs ++ [commentPart l] else cs) ds pts := by
  by_cases hc : ';' ∈ l <;> simp only [importEngLoop, hc, if_pos, if_neg, ite_true,
    ite_false, hbl, if_true]

theorem importEngLoop_step_desc (l : List Char) (rest cs : List (List Char))
    (pts : List (ℚ × ℚ)) (hbl : ¬ isBlank (stripComment l) = true) :
    importEngLoop (l :: rest) cs [] pts =
      importEngLoop rest (if ';' ∈ l then cs ++ [commentPart l] else cs)
        (splitSpace (pStrip (stripComment l))) pts := by
  by_cases hc : ';' ∈ l <;>
    simp only [importEngLoop, hc, ite_true, ite_false, hbl, if_false, if_pos rfl] <;> simp

theorem importEngLoop_step_data (l : List Char) (rest cs ds : List (List Char))
    (pts : List (ℚ × ℚ)) (t h : List Char) (hbl : ¬ isBlank (stripComment l) = true)
    (hds : ds ≠ []) (hfn : findNums (stripComment l) = [t, h]) :
    importEngLoop (l :: rest) cs ds pts =
      importEngLoop rest (if ';' ∈ l then cs ++ [commentPart l] else cs) ds
        (pts ++ [(parseDec t, parseDec h)]) := by
  by_cases hc : ';' ∈ l <;>
    simp only [importEngLoop, hc, ite_true, ite_false, hbl, if_false, if_neg hds, hfn] <;>
    simp

theorem importEngLoop_step_err (l : List Char) (rest cs ds : List (List Char))
    (pts : List (ℚ × ℚ)) (hbl : ¬ isBlank (stripComment l) = true)
    (hds : ds ≠ []) (hfn : ∀ t h, findNums (stripComment l) ≠ [t, h]) :
    ∀ r, importEngLoop (l :: rest) cs ds pts ≠ .ok r := by
  intro r
  by_cases hc : ';' ∈ l <;>
    simp only [importEngLoop, hc, ite_true, ite_false, hbl, if_false, if_neg hds] <;>
    · cases hfn2 : findNums (stripComment l) with
      | nil => simp
      | cons t ltl =>
        cases ltl with
        | nil => simp
        | cons h ltl2 =>
          cases ltl2 with
          | nil => exact absurd hfn2 (hfn t h)
          | cons u ltl3 => simp

theorem importEngLoop_data_ok :
    ∀ (lines cs ds : List (List Char)) (pts : List (ℚ × ℚ)), ds ≠ [] →
      (∀ l ∈ (lines.map stripComment).filter (fun l => !isBlank l),
        (findNums l).length = 2) →
      importEngLoop lines cs ds pts =
        .ok (cs ++ commentsSpec lines, ds,
          pts ++ ((lines.map stripComment).filter (fun l => !isBlank l)).map pairOfLine)
  | [], cs, ds, pts, hds, hwf => by simp [importEngLoop, commentsSpec]
  | l :: rest, cs, ds, pts, hds, hwf => by
    have hwfrest : ∀ x ∈ (rest.map stripComment).filter (fun x => !isBlank x),
        (findNums x).length = 2 := fun x hx => hwf x (by
      simp only [List.map_cons, List.filter_cons]
      split <;> simp [hx])
    by_cases hbl : isBlank (stripComment l) = true
    · rw [importEngLoop_step_blank l rest cs ds pts hbl,
        importEngLoop_data_ok rest _ ds pts hds hwfrest]
      by_cases hc : ';' ∈ l <;>
        simp [commentsSpec, List.filter_cons, hc, hbl, List.append_assoc]
    · have hmem : stripComment l ∈ ((l :: rest).map stripComment).filter
          (fun x => !isBlank x) := by simp [List.filter_cons, hbl]
      obtain ⟨t, h2, hfn⟩ := List.length_eq_two.1 (hwf _ hmem)
      have hpair : pairOfLine (stripComment l) = (parseDec t, parseDec h2) := by
        rw [pairOfLine, hfn]
      rw [importEngLoop_step_data l rest cs ds pts t h2 hbl hds hfn,
        importEngLoop_data_ok rest _ ds _ hds hwfrest]
      by_cases hc : ';' ∈ l <;>
        simp [commentsSpec, List.filter_cons, hc, hbl, hpair, List.append_assoc]

theorem contentLinesSpec_cons_blank (l : List Char) (rest : List (List Char))
    (hbl : isBlank (stripComment l) = true) :
    contentLinesSpec (l :: rest) = contentLinesSpec rest := by
  simp [contentLinesSpec, List.filter_cons, hbl]

theorem contentLinesSpec_cons_content (l : List Char) (rest : List (List Char))
    (hbl : ¬ isBlank (stripComment l) = true) :
    contentLinesSpec (l :: rest) = stripComment l :: contentLinesSpec rest := by
  simp [contentLinesSpec, List.filter_cons, hbl]

theorem importEngLoop_desc_ok :
    ∀ (lines cs : List (List Char)) (pts : List (ℚ × ℚ)),
      (∀ l ∈ (contentLinesSpec lines).tail, (findNums l).length = 2) →
      importEngLoop lines cs [] pts =
        .ok (cs ++ commentsSpec lines, descriptionSpec lines, pts ++ dataPairsSpec lines)
  | [], cs, pts, hwf => by
    simp [importEngLoop, commentsSpec, descriptionSpec, dataPairsSpec, contentLinesSpec]
  | l :: rest, cs, pts, hwf => by
    by_cases hbl : isBlank (stripComment l) = true
    · have hcl := contentLinesSpec_cons_blank l rest hbl
      rw [importEngLoop_step_blank l rest cs [] pts hbl,
        importEngLoop_desc_ok rest _ pts (by rw [← hcl]; exact hwf)]
      have hd : descriptionSpec (l :: rest) = descriptionSpec rest := by
        rw [descriptionSpec, descriptionSpec, hcl]
      have hp : dataPairsSpec (l :: rest) = dataPairsSpec rest := by
        rw [dataPairsSpec, dataPairsSpec, hcl]
      by_cases hc : ';' ∈ l <;>
        simp [commentsSpec, List.filter_cons, hc, hd, hp, List.append_assoc]
    · have hcl := contentLinesSpec_cons_content l rest hbl
      have hwf2 : ∀ x ∈ (rest.map stripComment).filter (fun x => !isBlank x),
          (findNums x).length = 2 := by
        intro x hx
        exact hwf x (by rw [hcl]; exact hx)
      rw [importEngLoop_step_desc l rest cs pts hbl,
        importEngLoop_data_ok rest _ _ pts (splitSpace_ne_nil _) hwf2]
      have hd : descriptionSpec (l :: rest) = splitSpace (pStrip (stripComment l)) := by
        rw [descriptionSpec, hcl]
      have hp : dataPairsSpec (l :: rest) =
          ((rest.map stripComment).filter (fun x => !isBlank x)).map pairOfLine := by
        rw [dataPairsSpec, hcl]
        rfl
      by_cases hc : ';' ∈ l <;>
        simp [commentsSpec, List.filter_cons, hc, hd, hp, List.append_assoc]

theorem importEngLoop_data_err :
    ∀ (lines cs ds : List (List Char)) (pts : List (ℚ × ℚ))
      (r : List (List Char) × List (List Char) × List (ℚ × ℚ)), ds ≠ [] →
      importEngLoop lines cs ds pts = .ok r →
      ∀ l ∈ (lines.map stripComment).filter (fun l => !isBlank l),
        (findNums l).length = 2
  | [], _, _, _, _, _, _ => by simp
  | l :: rest, cs, ds, pts, r, hds, hok => by
    by_cases hbl : isBlank (stripComment l) = true
    · rw [importEngLoop_step_blank l rest cs ds pts hbl] at hok
      intro x hx
      refine importEngLoop_data_err rest _ ds pts r hds hok x ?_
      simp only [List.map_cons, List.filter_cons, hbl] at hx
      simpa using hx
    · cases hfn : findNums (stripComment l) with
      | nil =>
        exact absurd hok (importEngLoop_step_err l rest cs ds pts hbl hds
          (fun t h => by simp [hfn]) r)
      | cons t tl =>
        cases tl with
        | nil =>
          exact absurd hok (importEngLoop_step_err l rest cs ds pts hbl hds
            (fun t2 h2 => by simp [hfn]) r)
        | cons h tl2 =>
          cases tl2 with
          | nil =>
            rw [importEngLoop_step_data l rest cs ds pts t h hbl hds hfn] at hok
            have hsplit : ((l :: rest).map stripComment).filter (fun x => !isBlank x) =
                stripComment l :: (rest.map stripComment).filter (fun x => !isBlank x) :=
              contentLinesSpec_cons_content l rest hbl
            intro x hx
            rw [hsplit] at hx
            rcases List.mem_cons.1 hx with hx1 | hx2
            · rw [hx1, hfn]; rfl
            · exact importEngLoop_data_err rest _ ds _ r hds hok x hx2
          | cons u tl3 =>
            exact absurd hok (importEngLoop_step_err l rest cs ds pts hbl hds
              (fun t2 h2 => by simp [hfn]) r)

theorem importEngLoop_desc_err :
    ∀ (lines cs : List (List Char)) (pts : List (ℚ × ℚ))
      (r : List (List Char) × List (List Char) × List (ℚ × ℚ)),
      importEngLoop lines cs [] pts = .ok r →
      ∀ l ∈ (contentLinesSpec lines).tail, (findNums l).length = 2
  | [], _, _, _, _ => by simp [contentLinesSpec]
  | l :: rest, cs, pts, r, hok => by
    by_cases hbl : isBlank (stripComment l) = true
    · rw [importEngLoop_step_blank l rest cs [] pts hbl] at hok
      rw [contentLinesSpec_cons_blank l rest hbl]
      exact importEngLoop_desc_err rest _ pts r hok
    · rw [importEngLoop_step_desc l rest cs pts hbl] at hok
      rw [contentLinesSpec_cons_content l rest hbl]
      intro x hx
      exact importEngLoop_data_err rest _ _ pts r (splitSpace_ne_nil _) hok x
        (by simpa [contentLinesSpec] using hx)

/-- C10.  For every well-formed motor file (each data line yields exactly two
numeric tokens), `Motor.importEng` returns: the comments — one entry per line
containing `;`, the substring from `;` to end of line, stripped from the line
before further parsing; the first remaining non-blank line, stripped and
tokenized, as the description record; and the data points, beginning with the
implicitly prepended `(0, 0)` absent from the file, followed by one
`(time, thrust)` pair per subsequent non-blank line, formed from its first two
numeric tokens.  Conversely, a successful parse rules out any data line with
fewer than two numeric tokens: such a line is a parse failure propagated to
the caller. -/
theorem importEng_spec (lines : List (List Char)) :
    ((∀ l ∈ (contentLinesSpec lines).tail, (findNums l).length = 2) →
      importEng lines = .ok (commentsSpec lines, descriptionSpec lines,
        (0, 0) :: dataPairsSpec lines))
    ∧ (∀ r, importEng lines = .ok r →
        ∀ l ∈ (contentLinesSpec lines).tail, ¬ (findNums l).length < 2) := by
  constructor
  · intro hwf
    rw [importEng, importEngLoop_desc_ok lines [] [(0, 0)] hwf]
    simp
  · intro r hok l hl
    rw [importEng] at hok
    have h2 := importEngLoop_desc_err lines [] [(0, 0)] r hok l hl
    omega

/-- Sample motor-file content for the C10 witness: a comment line, a
description line, and two data lines (one with a trailing comment). -/
def engLines : List (List Char) :=
  [(";this is a comment").toList,
   ("F32 24 124 5-10-15 .0377 .0695 RV").toList,
   ("1 10 ;thrust point").toList,
   ("2.5 20").toList]

/-- Witness for C10 on a concrete well-formed file. -/
theorem importEng_spec_witness :
    (∀ l ∈ (contentLinesSpec engLines).tail, (findNums l).length = 2)
    ∧ importEng engLines = .ok (commentsSpec engLines, descriptionSpec engLines,
        (0, 0) :: dataPairsSpec engLines)
    ∧ ∀ l ∈ (contentLinesSpec engLines).tail, ¬ (findNums l).length < 2 := by
  have hwf : ∀ l ∈ (contentLinesSpec engLines).tail, (findNums l).length = 2 := by decide
  have h1 := (importEng_spec engLines).1 hwf
  exact ⟨hwf, h1, fun l hl => (importEng_spec engLines).2 _ h1 l hl⟩
